import Mathlib

/-!
Verification of the fastapi-autocrud filtering / pagination core against its
specification.  The repository ships the test-suite and a sample application;
the `auto_crud` package itself (filter-string parser, value caster, operator
validator, query compiler, pagination arithmetic) is not part of the source
tree here, so the definitions below are modelled from the specification's
description of those components (each such definition says so in its doc
comment), and checked against the behaviours pinned by the shipped tests.

The embedding works on `List Char` internally so that every operation is a
plain structural recursion that the kernel can evaluate.
-/

deriving instance DecidableEq for Except

namespace AutoCrud

/-- Scalar values produced by value coercion: strings, integers, decimal
numbers (represented exactly as rationals), booleans, dates, datetimes,
128-bit identifiers (UUID) and the null value. -/
inductive Scalar where
  | str (s : String)
  | int (n : Int)
  | float (q : ℚ)
  | bool (b : Bool)
  | date (y m d : Nat)
  | datetime (y m d hh mi ss : Nat)
  | uuid (v : Nat)
  | null
deriving DecidableEq

/-- A filter value: a single scalar or an ordered list of scalars
(for `in` / `not_in` / `between`). -/
inductive Value where
  | scalar (s : Scalar)
  | list (l : List Scalar)
deriving DecidableEq

/-- The closed operator set of the micro-language, aliases already
normalised (`gte` to `ge`, `lte` to `le`). -/
inductive Op where
  | eq | ne | gt | ge | lt | le | like | contains
  | in_ | not_in | between | is_null | is_not_null
  | and_ | or_ | not_
deriving DecidableEq

/-- A parsed leaf filter: field name, operator and value.  This is the shape
the textual parser emits (the parser never emits logical groups). -/
structure FilterParam where
  field : String
  operator : Op
  value : Value
deriving DecidableEq

/-- Syntax errors raised by the filter-string parser. -/
inductive ParseError where
  | missingEquals (tok : String)
  | missingOperator (key : String)
  | unknownOperator (tok : String)
  | duplicateField (f : String)
  | betweenArity (f : String) (n : Nat)
  | invalidBool (f : String) (v : String)
deriving DecidableEq

/-! ### Character-list helpers -/

/-- Whitespace recognised when trimming segment fields and values. -/
def isSpaceC (c : Char) : Bool :=
  c = ' ' ∨ c = '\t' ∨ c = '\n' ∨ c = '\r'

/-- Drop leading whitespace. -/
def dropLeading : List Char → List Char
  | [] => []
  | c :: rest => if isSpaceC c then dropLeading rest else c :: rest

/-- Trim whitespace from both ends. -/
def trimL (cs : List Char) : List Char :=
  (dropLeading (dropLeading cs.reverse).reverse)

/-- Split at the first `=`, when present. -/
def splitFirstEq : List Char → Option (List Char × List Char)
  | [] => none
  | c :: rest =>
    if c = '=' then some ([], rest)
    else
      match splitFirstEq rest with
      | none => none
      | some (a, b) => some (c :: a, b)

/-- Split at the last occurrence of the operator marker `__`
(the counterpart of a right-split on the marker). -/
def rsplitDunder : List Char → Option (List Char × List Char)
  | [] => none
  | c :: rest =>
    match rsplitDunder rest with
    | some (a, b) => some (c :: a, b)
    | none =>
      match c, rest with
      | '_', '_' :: opTok => some ([], opTok)
      | _, _ => none

/-- Remove a matching pair of surrounding quotes, leaving the quoted text
(escape sequences included) verbatim. -/
def stripQuotesL (cs : List Char) : List Char :=
  match cs with
  | [] => []
  | [_] => cs
  | c :: rest =>
    if (c = '"' ∨ c = '\'') ∧ rest.getLast? = some c then
      rest.dropLast
    else cs

/-- Lower-case a character list. -/
def toLowerL (cs : List Char) : List Char := cs.map Char.toLower

/-! ### Quote-aware tokenisation

Modelled from the spec: "Segment splitting on `,` must not split inside a
quoted value (`"…"` or `'…'`); a backslash-escaped quote inside quotes is
preserved verbatim (not unescaped)."  The state machine keeps every input
character except the top-level commas it splits on. -/

/-- Split on commas that are outside quotes; a backslash inside quotes
escapes the following character (both are kept in the output). -/
def tokenizeAux : List Char → Option Char → Bool → List Char → List (List Char)
  | [], _, _, cur => [cur.reverse]
  | c :: rest, quote, esc, cur =>
    if esc then tokenizeAux rest quote false (c :: cur)
    else
      match quote with
      | some q =>
        if c = '\\' then tokenizeAux rest (some q) true (c :: cur)
        else if c = q then tokenizeAux rest none false (c :: cur)
        else tokenizeAux rest (some q) false (c :: cur)
      | none =>
        if c = '"' ∨ c = '\'' then tokenizeAux rest (some c) false (c :: cur)
        else if c = ',' then cur.reverse :: tokenizeAux rest none false []
        else tokenizeAux rest none false (c :: cur)

/-- Tokenise a filter string: split on unquoted commas only. -/
def tokenizeL (cs : List Char) : List (List Char) :=
  tokenizeAux cs none false []

/-- Rejoin tokens with commas (the text the tokeniser consumed). -/
def joinCommaL : List (List Char) → List Char
  | [] => []
  | [t] => t
  | t :: rest => t ++ ',' :: joinCommaL rest

/-! ### Shape-based scalar coercion

Modelled from the spec: the textual parser coerces each scalar by its
syntactic shape alone (no field catalogue): booleans, integers, decimals,
ISO dates/datetimes, UUIDs, the literal `null`, else the raw string. -/

/-- Decimal digit test. -/
def isDigitC (c : Char) : Bool := '0' ≤ c ∧ c ≤ '9'

/-- All characters are digits and there is at least one. -/
def isDigitsL (cs : List Char) : Bool :=
  cs ≠ [] ∧ cs.all isDigitC

/-- Value of a digit string. -/
def digitsToNat (cs : List Char) : Nat :=
  cs.foldl (fun acc c => acc * 10 + (c.toNat - '0'.toNat)) 0

/-- Integer shape: optional leading minus, then digits. -/
def isIntL (cs : List Char) : Bool :=
  match cs with
  | '-' :: rest => isDigitsL rest
  | _ => isDigitsL cs

/-- Integer value of an integer-shaped string. -/
def intValL (cs : List Char) : Int :=
  match cs with
  | '-' :: rest => -(digitsToNat rest : Int)
  | _ => (digitsToNat cs : Int)

/-- Split at the first occurrence of a character. -/
def splitFirstOn (sep : Char) : List Char → Option (List Char × List Char)
  | [] => none
  | c :: rest =>
    if c = sep then some ([], rest)
    else
      match splitFirstOn sep rest with
      | none => none
      | some (a, b) => some (c :: a, b)

/-- Split on every occurrence of a character. -/
def splitAllOn (sep : Char) (cs : List Char) : List (List Char) :=
  match cs with
  | [] => [[]]
  | c :: rest =>
    let parts := splitAllOn sep rest
    if c = sep then [] :: parts
    else
      match parts with
      | [] => [[c]]
      | p :: ps => (c :: p) :: ps

/-- Decimal shape: optional leading minus, digits, one point, digits. -/
def isFloatL (cs : List Char) : Bool :=
  let body := match cs with
    | '-' :: rest => rest
    | _ => cs
  match splitAllOn '.' body with
  | [a, b] => isDigitsL a ∧ isDigitsL b
  | _ => false

/-- Exact rational value of a decimal-shaped string. -/
def floatValL (cs : List Char) : ℚ :=
  let (sign, body) : Int × List Char := match cs with
    | '-' :: rest => (-1, rest)
    | _ => (1, cs)
  match splitAllOn '.' body with
  | [a, b] =>
      (sign * ((digitsToNat a : Int) * 10 ^ b.length + (digitsToNat b : Int)) : ℚ)
        / ((10 : ℚ) ^ b.length)
  | _ => 0

/-- ISO date shape `YYYY-MM-DD` with basic range checks. -/
def isDateL (cs : List Char) : Bool :=
  match splitAllOn '-' cs with
  | [y, m, d] =>
    y.length = 4 ∧ m.length = 2 ∧ d.length = 2 ∧
    isDigitsL y ∧ isDigitsL m ∧ isDigitsL d ∧
    1 ≤ digitsToNat m ∧ digitsToNat m ≤ 12 ∧
    1 ≤ digitsToNat d ∧ digitsToNat d ≤ 31
  | _ => false

/-- Date value of a date-shaped string. -/
def dateValL (cs : List Char) : Scalar :=
  match splitAllOn '-' cs with
  | [y, m, d] => .date (digitsToNat y) (digitsToNat m) (digitsToNat d)
  | _ => .null

/-- ISO time shape `HH:MM:SS` with basic range checks. -/
def isTimeL (cs : List Char) : Bool :=
  match splitAllOn ':' cs with
  | [h, mi, s] =>
    h.length = 2 ∧ mi.length = 2 ∧ s.length = 2 ∧
    isDigitsL h ∧ isDigitsL mi ∧ isDigitsL s ∧
    digitsToNat h ≤ 23 ∧ digitsToNat mi ≤ 59 ∧ digitsToNat s ≤ 59
  | _ => false

/-- ISO datetime shape `YYYY-MM-DDTHH:MM:SS`. -/
def isDatetimeL (cs : List Char) : Bool :=
  match splitFirstOn 'T' cs with
  | some (d, t) => isDateL d ∧ isTimeL t
  | none => false

/-- Datetime value of a datetime-shaped string. -/
def datetimeValL (cs : List Char) : Scalar :=
  match splitFirstOn 'T' cs with
  | some (d, t) =>
    match splitAllOn '-' d, splitAllOn ':' t with
    | [y, m, dd], [h, mi, s] =>
      .datetime (digitsToNat y) (digitsToNat m) (digitsToNat dd)
        (digitsToNat h) (digitsToNat mi) (digitsToNat s)
    | _, _ => .null
  | none => .null

/-- Hexadecimal digit value, when the character is one. -/
def hexVal (c : Char) : Option Nat :=
  if '0' ≤ c ∧ c ≤ '9' then some (c.toNat - '0'.toNat)
  else if 'a' ≤ c ∧ c ≤ 'f' then some (c.toNat - 'a'.toNat + 10)
  else if 'A' ≤ c ∧ c ≤ 'F' then some (c.toNat - 'A'.toNat + 10)
  else none

/-- All characters are hexadecimal digits. -/
def isHexL (cs : List Char) : Bool := cs.all (fun c => (hexVal c).isSome)

/-- Canonical UUID shape: five dash-separated hex groups of sizes
8-4-4-4-12. -/
def isUuidL (cs : List Char) : Bool :=
  match splitAllOn '-' cs with
  | [a, b, c, d, e] =>
    a.length = 8 ∧ b.length = 4 ∧ c.length = 4 ∧ d.length = 4 ∧ e.length = 12 ∧
    isHexL a ∧ isHexL b ∧ isHexL c ∧ isHexL d ∧ isHexL e
  | _ => false

/-- 128-bit value of a UUID-shaped string. -/
def uuidValL (cs : List Char) : Nat :=
  (cs.filter (fun c => c ≠ '-')).foldl
    (fun acc c => acc * 16 + (hexVal c).getD 0) 0

/-- Modelled from the spec: shape-based coercion of one raw scalar, used by
the filter-string parser with no access to any field catalogue.  The literal
`null` becomes the null value, `true` / `false` (case-insensitive) become
booleans, integer and decimal shapes become numbers, ISO datetime / date
shapes become temporal values, UUID shapes become identifiers; everything
else stays the raw string. -/
def coerceScalar (cs : List Char) : Scalar :=
  if cs = ['n', 'u', 'l', 'l'] then .null
  else if toLowerL cs = ['t', 'r', 'u', 'e'] then .bool true
  else if toLowerL cs = ['f', 'a', 'l', 's', 'e'] then .bool false
  else if isIntL cs then .int (intValL cs)
  else if isFloatL cs then .float (floatValL cs)
  else if isDatetimeL cs then datetimeValL cs
  else if isDateL cs then dateValL cs
  else if isUuidL cs then .uuid (uuidValL cs)
  else .str (String.mk cs)

/-! ### Segment grouping and the filter-string parser

Modelled from the spec: a filter string is a comma-separated list of
`field__operator=value` segments; a token carrying an `=` starts a new
segment, a token without one continues the value list of the segment before
it (this is how `in` / `not_in` / `between` receive several values). -/

/-- A raw segment: the text before its `=` and the list of raw value parts
(the part after `=` followed by any continuation tokens). -/
structure RawSeg where
  key : List Char
  parts : List (List Char)
deriving DecidableEq

/-- Whether a token contains an (unquoted-position) `=`. -/
def hasEq (cs : List Char) : Bool := (splitFirstEq cs).isSome

/-- Group tokens into raw segments; continuation tokens are appended to the
open segment's parts, and a leading token without `=` is a syntax error. -/
def groupAux (cur : RawSeg) : List (List Char) → List RawSeg
  | [] => [cur]
  | t :: rest =>
    match splitFirstEq t with
    | some (k, v) => cur :: groupAux ⟨k, [v]⟩ rest
    | none => groupAux ⟨cur.key, cur.parts ++ [t]⟩ rest

/-- Group a token list into raw segments. -/
def groupSegs : List (List Char) → Except ParseError (List RawSeg)
  | [] => .ok []
  | t :: rest =>
    match splitFirstEq t with
    | some (k, v) => .ok (groupAux ⟨k, [v]⟩ rest)
    | none => .error (.missingEquals (String.mk t))

/-- Normalise an operator token, accepting the documented aliases
(`gte` to `ge`, `lte` to `le`). -/
def parseOpTok (cs : List Char) : Option Op :=
  let s := String.mk cs
  if s = "eq" then some .eq
  else if s = "ne" then some .ne
  else if s = "gt" then some .gt
  else if s = "ge" ∨ s = "gte" then some .ge
  else if s = "lt" then some .lt
  else if s = "le" ∨ s = "lte" then some .le
  else if s = "like" then some .like
  else if s = "contains" then some .contains
  else if s = "in" then some .in_
  else if s = "not_in" then some .not_in
  else if s = "between" then some .between
  else if s = "is_null" then some .is_null
  else if s = "is_not_null" then some .is_not_null
  else none

/-- Whether the operator takes a list value. -/
def isListOp (op : Op) : Bool :=
  op = .in_ ∨ op = .not_in ∨ op = .between

/-- Trim and unquote one raw value part. -/
def cleanPart (cs : List Char) : List Char := stripQuotesL (trimL cs)

/-- Modelled from the spec: turn one raw segment into a leaf filter.  The
key right-splits on the operator marker `__` (a key without the marker is a
syntax error; an empty field name is accepted — documented quirk), the
operator token is normalised, list operators collect their parts (an empty
raw value is the empty list), `between` must end up with exactly two
elements, `is_null` / `is_not_null` coerce their value to a boolean
case-insensitively, and every other operator takes one shape-coerced
scalar. -/
def processSegment (seg : RawSeg) : Except ParseError FilterParam :=
  match rsplitDunder (trimL seg.key) with
  | none => .error (.missingOperator (String.mk (trimL seg.key)))
  | some (f, opTok) =>
    match parseOpTok opTok with
    | none => .error (.unknownOperator (String.mk opTok))
    | some op =>
      let field := String.mk (trimL f)
      if op = .in_ ∨ op = .not_in then
        let parts := seg.parts.map cleanPart
        if parts = [[]] then .ok ⟨field, op, .list []⟩
        else .ok ⟨field, op, .list (parts.map coerceScalar)⟩
      else if op = .between then
        match seg.parts.map cleanPart with
        | [a, b] => .ok ⟨field, op, .list [coerceScalar a, coerceScalar b]⟩
        | parts => .error (.betweenArity field parts.length)
      else if op = .is_null ∨ op = .is_not_null then
        let raw := toLowerL (trimL (joinCommaL seg.parts))
        if raw = ['t', 'r', 'u', 'e'] then .ok ⟨field, op, .scalar (.bool true)⟩
        else if raw = ['f', 'a', 'l', 's', 'e'] then
          .ok ⟨field, op, .scalar (.bool false)⟩
        else .error (.invalidBool field (String.mk raw))
      else
        .ok ⟨field, op, .scalar (coerceScalar (cleanPart (joinCommaL seg.parts)))⟩

/-- Sequence a fallible function over a list, stopping at the first error. -/
def mapExcept (f : α → Except ε β) : List α → Except ε (List β)
  | [] => .ok []
  | a :: rest =>
    match f a with
    | .error e => .error e
    | .ok b =>
      match mapExcept f rest with
      | .error e => .error e
      | .ok bs => .ok (b :: bs)

/-- Modelled from the spec: each field may appear at most once per filter
string; a repeated field name is a syntax error. -/
def checkDupFields (seen : List String) : List FilterParam → Except ParseError Unit
  | [] => .ok ()
  | p :: rest =>
    if p.field ∈ seen then .error (.duplicateField p.field)
    else checkDupFields (p.field :: seen) rest

/-- Modelled from the spec: the filter-string parser.  Tokenises on unquoted
commas, groups tokens into `field__operator=value` segments, turns each
segment into a leaf filter with shape-coerced values, and rejects duplicate
field names.  An empty (or all-whitespace) filter string yields no
filters. -/
def parseFilters (s : String) : Except ParseError (List FilterParam) :=
  let cs := trimL s.data
  if cs = [] then .ok []
  else
    match groupSegs (tokenizeL cs) with
    | .error e => .error e
    | .ok segs =>
      match mapExcept processSegment segs with
      | .error e => .error e
      | .ok ps =>
        match checkDupFields [] ps with
        | .error e => .error e
        | .ok _ => .ok ps

/-! ### Field catalogue and operator validation -/

/-- Semantic type categories of the Field Catalogue. -/
inductive Category where
  | string | numeric | boolean | datetime | date | identifier | default
deriving DecidableEq

/-- Association-list lookup by field name. -/
def assocLookup {α : Type} : List (String × α) → String → Option α
  | [], _ => none
  | (k, v) :: rest, f => if k = f then some v else assocLookup rest f

/-- A field catalogue: field names with their type categories. -/
def Catalogue : Type := List (String × Category)

/-- Modelled from the spec: the catalogue the tests build from the `User`
record type (UUID key, string columns, integer age, boolean flags, datetime
stamps). -/
def userCatalogue : Catalogue :=
  [("id", .identifier), ("username", .string), ("email", .string),
   ("password", .string), ("full_name", .string), ("bio", .string),
   ("age", .numeric), ("is_active", .boolean), ("is_verified", .boolean),
   ("last_login", .datetime), ("created_at", .datetime),
   ("updated_at", .datetime)]

/-- Modelled from the spec: the allowed-operator configuration — a mapping
from type category to permitted operator set plus a default fallback set,
supplied at compiler construction and never mutated. -/
structure AllowedOperatorMap where
  entries : List (Category × List Op)
  dflt : List Op

/-- Category lookup in an allowed-operator map. -/
def catLookup : List (Category × List Op) → Category → Option (List Op)
  | [], _ => none
  | (k, v) :: rest, c => if k = c then some v else catLookup rest c

/-- Resolve the allowed-operator set for a category, falling back to the
default set when the category has no explicit entry. -/
def resolveAllowed (m : AllowedOperatorMap) (c : Category) : List Op :=
  (catLookup m.entries c).getD m.dflt

/-- The logical (group) operators. -/
def isLogicalOp (op : Op) : Bool :=
  op = .and_ ∨ op = .or_ ∨ op = .not_

/-- Validation errors of the operator validator / value caster. -/
inductive FilterError where
  | fieldNotFound (f : String)
  | operatorNotAllowed (op : Op) (f : String)
  | castError (c : Category)
  | castArity (n : Nat)
deriving DecidableEq

/-- Modelled from the spec: operator validation.  An unknown field fails
with a field-not-found error before the operator is examined; the logical
operators are always permitted; any other operator must belong to the
allowed set resolved for the field's category. -/
def validateOperatorForField (cat : Catalogue) (m : AllowedOperatorMap)
    (field : String) (op : Op) : Except FilterError Bool :=
  match assocLookup cat field with
  | none => .error (.fieldNotFound field)
  | some c =>
    if isLogicalOp op then .ok true
    else if op ∈ resolveAllowed m c then .ok true
    else .error (.operatorNotAllowed op field)

/-- Modelled from the spec: the library's default allowed-operator map
(comparison and membership operators per category, equality for the default
category). -/
def defaultAllowedOperators : AllowedOperatorMap where
  entries :=
    [(.string, [.eq, .ne, .like, .contains, .in_, .not_in, .is_null, .is_not_null]),
     (.numeric, [.eq, .ne, .gt, .ge, .lt, .le, .in_, .not_in, .between,
                 .is_null, .is_not_null]),
     (.boolean, [.eq, .ne, .is_null, .is_not_null]),
     (.datetime, [.eq, .ne, .gt, .ge, .lt, .le, .between, .is_null, .is_not_null]),
     (.date, [.eq, .ne, .gt, .ge, .lt, .le, .between, .is_null, .is_not_null]),
     (.identifier, [.eq, .ne, .in_, .not_in, .is_null, .is_not_null])]
  dflt := [.eq, .ne]

/-! ### Value caster -/

/-- Stringification of a scalar, used by the string category. -/
def stringifyScalar : Scalar → String
  | .str s => s
  | .int n => toString n
  | .float q => toString q
  | .bool true => "True"
  | .bool false => "False"
  | .date y m d => s!"{y}-{m}-{d}"
  | .datetime y m d hh mi ss => s!"{y}-{m}-{d} {hh}:{mi}:{ss}"
  | .uuid v => toString v
  | .null => "None"

/-- Modelled from the spec: scalar casting per type category.  Category-native
values pass through unchanged; textual values are parsed (numeric and
boolean failures are hard cast errors, while malformed datetime / date /
identifier text is tolerated and passed through as the raw string —
documented gap). -/
def castScalar (c : Category) (v : Scalar) : Except FilterError Scalar :=
  match c, v with
  | .string, v => .ok (.str (stringifyScalar v))
  | .numeric, .int n => .ok (.int n)
  | .numeric, .float q => .ok (.float q)
  | .numeric, .str s =>
    if isIntL s.data then .ok (.int (intValL s.data))
    else if isFloatL s.data then .ok (.float (floatValL s.data))
    else .error (.castError .numeric)
  | .numeric, _ => .error (.castError .numeric)
  | .boolean, .bool b => .ok (.bool b)
  | .boolean, .str s =>
    if toLowerL s.data = ['t', 'r', 'u', 'e'] then .ok (.bool true)
    else if toLowerL s.data = ['f', 'a', 'l', 's', 'e'] then .ok (.bool false)
    else .error (.castError .boolean)
  | .boolean, _ => .error (.castError .boolean)
  | .datetime, .str s =>
    if isDatetimeL s.data then .ok (datetimeValL s.data)
    else if isDateL s.data then .ok (dateValL s.data)
    else .ok (.str s)
  | .datetime, v => .ok v
  | .date, .str s =>
    if isDateL s.data then .ok (dateValL s.data) else .ok (.str s)
  | .date, v => .ok v
  | .identifier, .str s =>
    if isUuidL s.data then .ok (.uuid (uuidValL s.data)) else .ok (.str s)
  | .identifier, v => .ok v
  | .default, v => .ok v

/-- Modelled from the spec: cast a filter value for a category and operator.
List values cast each element independently; `between` additionally requires
exactly two elements. -/
def castValue (c : Category) (op : Op) (v : Value) : Except FilterError Value :=
  match v with
  | .scalar s =>
    match castScalar c s with
    | .error e => .error e
    | .ok s => .ok (.scalar s)
  | .list l =>
    match mapExcept (castScalar c) l with
    | .error e => .error e
    | .ok l =>
      if op = .between ∧ l.length ≠ 2 then .error (.castArity l.length)
      else .ok (.list l)

/-- Native-type test for a category, as used by the no-op casting
property: strings for the string category, integers or decimals for
numeric, booleans for boolean, temporal values for datetime / date, UUIDs
for identifier, and anything for the default category. -/
def isNative : Category → Scalar → Bool
  | .string, .str _ => true
  | .numeric, .int _ => true
  | .numeric, .float _ => true
  | .boolean, .bool _ => true
  | .datetime, .datetime .. => true
  | .date, .date .. => true
  | .identifier, .uuid _ => true
  | .default, _ => true
  | _, _ => false

/-! ### Compiled predicates and query application

Modelled from the spec: the compiler turns validated leaves and logical
groups into backend-agnostic predicates; a query is the list of predicates
attached to it so far, run by filtering a dataset with their
conjunction. -/

/-- A record of the queried collection: named scalar fields. -/
def Record : Type := List (String × Scalar)

/-- A compiled predicate: a comparison leaf or a logical combinator. -/
inductive Pred where
  | leaf (field : String) (op : Op) (value : Value)
  | andP (children : List Pred)
  | orP (children : List Pred)
  | notP (child : Pred)

/-- Ordering comparison between same-kind scalars (numbers compare across
the integer / decimal kinds). -/
def compareScalar : Scalar → Scalar → Option Ordering
  | .int a, .int b => some (compare a b)
  | .int a, .float b => some (if (a : ℚ) < b then .lt else if b < (a : ℚ) then .gt else .eq)
  | .float a, .int b => some (if a < (b : ℚ) then .lt else if (b : ℚ) < a then .gt else .eq)
  | .float a, .float b => some (if a < b then .lt else if b < a then .gt else .eq)
  | .str a, .str b => some (compare a b)
  | .date y m d, .date y' m' d' =>
    some ((compare y y').then ((compare m m').then (compare d d')))
  | .datetime y m d h mi s, .datetime y' m' d' h' mi' s' =>
    some ((compare y y').then ((compare m m').then ((compare d d').then
      ((compare h h').then ((compare mi mi').then (compare s s'))))))
  | .uuid a, .uuid b => some (compare a b)
  | _, _ => none

/-- Substring test on strings (the `contains` semantics). -/
def strContains (hay needle : List Char) : Bool :=
  match hay with
  | [] => needle = []
  | _ :: rest => needle.isPrefixOf hay || strContains rest needle

/-- SQL-style wildcard match: `%` matches any run, `_` one character. -/
def likeMatch : List Char → List Char → Bool
  | [], [] => true
  | [], _ :: _ => false
  | '%' :: ps, hay =>
    likeMatch ps hay ||
      (match hay with
       | [] => false
       | _ :: hs => likeMatch ('%' :: ps) hs)
  | '_' :: ps, _ :: hs => likeMatch ps hs
  | _ :: _, [] => false
  | p :: ps, h :: hs => p = h && likeMatch ps hs
termination_by pat hay => (pat.length, hay.length)

/-- Evaluate one comparison leaf on a record. -/
def evalLeaf (r : Record) (field : String) (op : Op) (v : Value) : Bool :=
  let fv := assocLookup r field
  match op with
  | .is_null =>
    match v with
    | .scalar (.bool b) => ((fv.getD .null) = .null) = b
    | _ => false
  | .is_not_null =>
    match v with
    | .scalar (.bool b) => ((fv.getD .null) ≠ .null) = b
    | _ => false
  | .eq => match fv, v with
    | some s, .scalar t => s = t
    | _, _ => false
  | .ne => match fv, v with
    | some s, .scalar t => s ≠ t
    | _, _ => false
  | .gt => match fv, v with
    | some s, .scalar t => compareScalar s t = some .gt
    | _, _ => false
  | .ge => match fv, v with
    | some s, .scalar t => compareScalar s t = some .gt ∨ compareScalar s t = some .eq
    | _, _ => false
  | .lt => match fv, v with
    | some s, .scalar t => compareScalar s t = some .lt
    | _, _ => false
  | .le => match fv, v with
    | some s, .scalar t => compareScalar s t = some .lt ∨ compareScalar s t = some .eq
    | _, _ => false
  | .contains => match fv, v with
    | some (.str s), .scalar (.str t) => strContains s.data t.data
    | _, _ => false
  | .like => match fv, v with
    | some (.str s), .scalar (.str t) => likeMatch t.data s.data
    | _, _ => false
  | .in_ => match fv, v with
    | some s, .list l => s ∈ l
    | _, _ => false
  | .not_in => match fv, v with
    | some s, .list l => s ∉ l
    | _, _ => false
  | .between => match fv, v with
    | some s, .list [a, b] =>
      (compareScalar a s = some .lt ∨ compareScalar a s = some .eq) ∧
        (compareScalar s b = some .lt ∨ compareScalar s b = some .eq)
    | _, _ => false
  | _ => false

mutual

/-- Evaluate a compiled predicate on a record: `and` / `or` combine their
children (a vacuous OR is false, a vacuous AND true), `not` negates. -/
def evalPred : Pred → Record → Bool
  | .leaf f op v, r => evalLeaf r f op v
  | .andP l, r => evalAll l r
  | .orP l, r => evalAny l r
  | .notP p, r => !evalPred p r

/-- Conjunction of a predicate list on a record. -/
def evalAll : List Pred → Record → Bool
  | [], _ => true
  | p :: rest, r => evalPred p r && evalAll rest r

/-- Disjunction of a predicate list on a record. -/
def evalAny : List Pred → Record → Bool
  | [], _ => false
  | p :: rest, r => evalPred p r || evalAny rest r

end

/-- A query: the conjunction of the predicates attached so far. -/
structure Query where
  wheres : List Pred

/-- Run a query over a dataset: keep the records satisfying every attached
predicate. -/
def runQuery (q : Query) (data : List Record) : List Record :=
  data.filter (fun r => evalAll q.wheres r)

/-- Modelled from the spec: free-text search attaches an OR of per-field
`contains` leaves over the given field list; an empty field list therefore
attaches a vacuous OR, which matches no records. -/
def applySearch (q : Query) (term : String) (fields : List String) : Query :=
  ⟨q.wheres ++ [.orP (fields.map (fun f => .leaf f .contains (.scalar (.str term))))]⟩

/-- A compiler instance: the field catalogue and the allowed-operator map,
both fixed at construction. -/
structure QueryFilter where
  catalogue : Catalogue
  allowed : AllowedOperatorMap

/-- The compiler instance the tests build over the `User` record type with
the default operator configuration. -/
def userQueryFilter : QueryFilter :=
  ⟨userCatalogue, defaultAllowedOperators⟩

/-- Modelled from the spec: leaf compilation — validate the operator for
the field, cast the value for the field's category, then emit the
comparison leaf. -/
def compileLeaf (qf : QueryFilter) (p : FilterParam) : Except FilterError Pred :=
  match validateOperatorForField qf.catalogue qf.allowed p.field p.operator with
  | .error e => .error e
  | .ok _ =>
    match assocLookup qf.catalogue p.field with
    | none => .error (.fieldNotFound p.field)
    | some c =>
      match castValue c p.operator p.value with
      | .error e => .error e
      | .ok v => .ok (.leaf p.field p.operator v)

/-- Modelled from the spec: apply a top-level filter list to a query — the
compiled leaves are implicitly ANDed onto the query; an empty filter list
attaches nothing. -/
def applyFilters (qf : QueryFilter) (q : Query) (fs : List FilterParam) :
    Except FilterError Query :=
  match mapExcept (compileLeaf qf) fs with
  | .error e => .error e
  | .ok [] => .ok q
  | .ok ps => .ok ⟨q.wheres ++ ps⟩

/-! ### Pagination arithmetic

Modelled from the spec: `offset = (page-1)*size`, `pages = ceil(total/size)`,
`has_next = page < pages`, `has_prev = page > 1`. -/

/-- Offset of a page: `(page - 1) * size`. -/
def pageOffset (page size : Nat) : Nat := (page - 1) * size

/-- Total number of pages: the ceiling of `total / size`. -/
def totalPages (total size : Nat) : Nat := (total + size - 1) / size

/-- Whether a further page exists. -/
def hasNext (page pages : Nat) : Bool := page < pages

/-- Whether a previous page exists. -/
def hasPrev (page : Nat) : Bool := 1 < page

/-- Pagination bookkeeping of a paginated response. -/
structure PageMeta where
  page : Nat
  size : Nat
  total : Nat
  pages : Nat
  has_next : Bool
  has_prev : Bool
deriving DecidableEq

/-- Build the bookkeeping of a paginated response from page, size and the
total row count. -/
def mkPageMeta (page size total : Nat) : PageMeta :=
  { page := page, size := size, total := total,
    pages := totalPages total size,
    has_next := hasNext page (totalPages total size),
    has_prev := hasPrev page }

/-! ### Helper lemmas -/

/-- Conjunction of predicates splits over list append. -/
theorem evalAll_append (a b : List Pred) (r : Record) :
    evalAll (a ++ b) r = (evalAll a r && evalAll b r) := by
  induction a with
  | nil => simp [evalAll]
  | cons p rest ih => simp [evalAll, ih, Bool.and_assoc]

/-- Filtering with a pointwise-false test yields the empty list. -/
theorem filter_false_nil {α : Type} (f : α → Bool) (l : List α)
    (h : ∀ x, f x = false) : l.filter f = [] := by
  induction l with
  | nil => rfl
  | cons a l ih => simp [List.filter_cons, h, ih]

/-- A successful `mapExcept` run relates each output element to an input
element the function succeeded on. -/
theorem mapExcept_ok_forall {α β ε : Type} (f : α → Except ε β)
    (P : β → Prop) (hP : ∀ a b, f a = .ok b → P b) :
    ∀ (l : List α) (bs : List β), mapExcept f l = .ok bs → ∀ b ∈ bs, P b := by
  intro l
  induction l with
  | nil =>
    intro bs h b hb
    cases h
    cases hb
  | cons a rest ih =>
    intro bs h b hb
    unfold mapExcept at h
    cases hfa : f a with
    | error e => rw [hfa] at h; cases h
    | ok b0 =>
      rw [hfa] at h
      cases hrest : mapExcept f rest with
      | error e => rw [hrest] at h; cases h
      | ok bs0 =>
        rw [hrest] at h
        cases h
        rcases List.mem_cons.mp hb with hb | hb
        · exact hb ▸ hP a b0 hfa
        · exact ih bs0 hrest b hb

/-- A successful duplicate check means every emitted field is new: the
field list is duplicate-free and disjoint from the already-seen fields. -/
theorem checkDupFields_ok_nodup :
    ∀ (ps : List FilterParam) (seen : List String),
      checkDupFields seen ps = .ok () →
      (ps.map (·.field)).Nodup ∧ ∀ f ∈ ps.map (·.field), f ∉ seen := by
  intro ps
  induction ps with
  | nil => intro seen _; simp
  | cons p rest ih =>
    intro seen h
    unfold checkDupFields at h
    by_cases hmem : p.field ∈ seen
    · simp [hmem] at h
    · simp only [hmem, if_false] at h
      obtain ⟨hnd, hdisj⟩ := ih (p.field :: seen) h
      refine ⟨List.nodup_cons.mpr ⟨?_, hnd⟩, ?_⟩
      · intro hin
        exact hdisj p.field hin (List.mem_cons_self _ _)
      · intro f hf
        rcases List.mem_cons.mp hf with hf | hf
        · exact hf ▸ hmem
        · intro hfs
          exact hdisj f hf (List.mem_cons_of_mem _ hfs)

/-- Ceiling division `(total + size - 1) / size` agrees with the rational
ceiling of `total / size` for a positive page size. -/
theorem totalPages_eq_ceil (total size : Nat) (hs : 1 ≤ size) :
    totalPages total size = ⌈(total : ℚ) / (size : ℚ)⌉₊ := by
  have hs0 : (0 : ℚ) < (size : ℚ) := by exact_mod_cast hs
  obtain ⟨q, hq⟩ : ∃ q, (total + size - 1) / size = q := ⟨_, rfl⟩
  obtain ⟨r, hr⟩ : ∃ r, (total + size - 1) % size = r := ⟨_, rfl⟩
  have hdm := Nat.div_add_mod (total + size - 1) size
  rw [hq, hr] at hdm
  have hrlt : r < size := hr ▸ Nat.mod_lt _ (by omega)
  have hcomm : size * q = q * size := Nat.mul_comm size q
  have F1 : total ≤ q * size := by omega
  unfold totalPages
  rw [hq]
  apply Nat.le_antisymm
  · rcases Nat.eq_zero_or_pos q with h0 | hpos
    · rw [h0]; exact Nat.zero_le _
    · obtain ⟨q', rfl⟩ : ∃ q', q = q' + 1 := ⟨q - 1, by omega⟩
      have hms : size * (q' + 1) = size * q' + size := Nat.mul_succ size q'
      have hc2 : size * q' = q' * size := Nat.mul_comm size q'
      have F2 : q' * size < total := by omega
      have hlt : (q' : ℕ) < ⌈(total : ℚ) / (size : ℚ)⌉₊ := by
        rw [Nat.lt_ceil, lt_div_iff₀ hs0]
        exact_mod_cast F2
      omega
  · rw [Nat.ceil_le, div_le_iff₀ hs0]
    exact_mod_cast F1

/-! ### Claim theorems -/

/-- Claim C1: free-text search with an empty field list attaches a vacuous
OR, so the resulting query matches zero records on every dataset (non-empty
ones included), for every search term and every starting query. -/
theorem search_with_empty_fields_matches_no_records
    (q : Query) (term : String) (data : List Record) :
    runQuery (applySearch q term []) data = [] := by
  unfold runQuery applySearch
  apply filter_false_nil
  intro r
  simp [evalAll_append, evalAll, evalAny, evalPred]

/-- Claim C9: applying the filter stage with an empty filter list adds no
predicate and returns the query unchanged. -/
theorem apply_filters_empty_is_identity (qf : QueryFilter) (q : Query) :
    applyFilters qf q [] = .ok q := rfl

/-- Claim C8: casting a category-native value is a no-op — for every
category, operator and scalar already of the category's native type, the
caster returns the value unchanged. -/
theorem cast_native_value_is_identity (c : Category) (op : Op) (v : Scalar)
    (h : isNative c v = true) :
    castValue c op (.scalar v) = .ok (.scalar v) := by
  cases c <;> cases v <;>
    simp_all [castValue, castScalar, isNative, stringifyScalar]

/-- Witness for C8 at concrete native values of each claimed category:
an already-boolean, an already-integer, a datetime object, a string and a
UUID all pass through unchanged. -/
theorem cast_native_value_is_identity_witness :
    (isNative .boolean (.bool true) = true ∧
      castValue .boolean .eq (.scalar (.bool true)) = .ok (.scalar (.bool true))) ∧
    (isNative .numeric (.int 25) = true ∧
      castValue .numeric .eq (.scalar (.int 25)) = .ok (.scalar (.int 25))) ∧
    (isNative .datetime (.datetime 2024 1 1 10 30 0) = true ∧
      castValue .datetime .ge (.scalar (.datetime 2024 1 1 10 30 0)) =
        .ok (.scalar (.datetime 2024 1 1 10 30 0))) ∧
    (isNative .string (.str "test") = true ∧
      castValue .string .eq (.scalar (.str "test")) = .ok (.scalar (.str "test"))) ∧
    (isNative .identifier (.uuid 12345) = true ∧
      castValue .identifier .eq (.scalar (.uuid 12345)) = .ok (.scalar (.uuid 12345))) :=
  ⟨⟨rfl, cast_native_value_is_identity .boolean .eq (.bool true) rfl⟩,
   ⟨rfl, cast_native_value_is_identity .numeric .eq (.int 25) rfl⟩,
   ⟨rfl, cast_native_value_is_identity .datetime .ge (.datetime 2024 1 1 10 30 0) rfl⟩,
   ⟨rfl, cast_native_value_is_identity .string .eq (.str "test") rfl⟩,
   ⟨rfl, cast_native_value_is_identity .identifier .eq (.uuid 12345) rfl⟩⟩

/-- Claim C2: pagination arithmetic — the offset is `(page-1)*size`, the
page count is the ceiling of `total/size`, `has_next` holds exactly below
the page count and `has_prev` exactly above page one; in particular the
offset of page 5 at size 20 is 80, and a paginated result with total 5,
size 2, page 1 has 3 pages, a next page and no previous page. -/
theorem pagination_arithmetic_contract (page size total : Nat)
    (hp : 1 ≤ page) (hs : 1 ≤ size) :
    pageOffset page size = (page - 1) * size ∧
    totalPages total size = ⌈(total : ℚ) / (size : ℚ)⌉₊ ∧
    hasNext page (totalPages total size) =
      decide (page < totalPages total size) ∧
    hasPrev page = decide (1 < page) ∧
    pageOffset 5 20 = 80 ∧
    mkPageMeta 1 2 5 = ⟨1, 2, 5, 3, true, false⟩ :=
  ⟨rfl, totalPages_eq_ceil total size hs, rfl, rfl, rfl, rfl⟩

/-- Witness for C2 at page 5, size 20, total 5. -/
theorem pagination_arithmetic_contract_witness :
    1 ≤ 5 ∧ 1 ≤ 20 ∧
    (pageOffset 5 20 = (5 - 1) * 20 ∧
      totalPages 5 20 = ⌈(5 : ℚ) / (20 : ℚ)⌉₊ ∧
      hasNext 5 (totalPages 5 20) = decide (5 < totalPages 5 20) ∧
      hasPrev 5 = decide (1 < 5) ∧
      pageOffset 5 20 = 80 ∧
      mkPageMeta 1 2 5 = ⟨1, 2, 5, 3, true, false⟩) :=
  ⟨by decide, by decide, pagination_arithmetic_contract 5 20 5 (by decide) (by decide)⟩

/-- Inversion of a successful parse: either the filter string was blank, or
the pipeline's three stages all succeeded on it. -/
theorem parseFilters_ok_inv (s : String) (ps : List FilterParam)
    (h : parseFilters s = .ok ps) :
    ps = [] ∨
      ∃ segs, groupSegs (tokenizeL (trimL s.data)) = .ok segs ∧
        mapExcept processSegment segs = .ok ps ∧
        checkDupFields [] ps = .ok () := by
  unfold parseFilters at h
  dsimp only at h
  split at h
  · cases h
    exact Or.inl rfl
  · split at h
    next e heq => cases h
    next segs heq =>
      split at h
      next e heq2 => cases h
      next ps' heq3 =>
        split at h
        next e heq4 => cases h
        next u heq5 =>
          cases u
          cases h
          exact Or.inr ⟨segs, heq, heq3, heq5⟩

/-- A leaf the segment processor emits for the `between` operator always
carries a two-element list value. -/
theorem processSegment_between_two (seg : RawSeg) (p : FilterParam)
    (h : processSegment seg = .ok p) (hop : p.operator = .between) :
    ∃ a b, p.value = .list [a, b] := by
  unfold processSegment at h
  split at h
  · cases h
  · dsimp only at h
    split at h
    · cases h
    · split at h
      · split at h
        · cases h
          simp_all
        · cases h
          simp_all
      · split at h
        · split at h
          next a b heqp =>
            cases h
            exact ⟨_, _, rfl⟩
          next =>
            cases h
        · split at h
          · split at h
            · cases h
              simp_all
            · split at h
              · cases h
                simp_all
              · cases h
          · cases h
            simp_all

/-- Claim C3: the `between` operator parses to exactly two cast values or
fails with an arity error — `age__between=18` and `age__between=18,25,30`
are rejected with the arity-flavoured syntax error, `age__between=18,65`
yields the two-element value `[18, 65]`, and every leaf any successful
parse emits for `between` has a two-element list value. -/
theorem between_parses_to_exactly_two_values :
    parseFilters "age__between=18" = .error (.betweenArity "age" 1) ∧
    parseFilters "age__between=18,25,30" = .error (.betweenArity "age" 3) ∧
    parseFilters "age__between=18,65" =
      .ok [⟨"age", .between, .list [.int 18, .int 65]⟩] ∧
    ∀ (s : String) (ps : List FilterParam), parseFilters s = .ok ps →
      ∀ p ∈ ps, p.operator = .between → ∃ a b, p.value = .list [a, b] := by
  refine ⟨by decide, by decide, by decide, ?_⟩
  intro s ps h p hp hop
  rcases parseFilters_ok_inv s ps h with rfl | ⟨segs, _, hm, _⟩
  · cases hp
  · exact mapExcept_ok_forall processSegment
      (fun p => p.operator = .between → ∃ a b, p.value = .list [a, b])
      (fun seg p hps => processSegment_between_two seg p hps)
      segs ps hm p hp hop

/-- Witness for C3: the universal part applied to the concrete successful
parse of `age__between=18,65`. -/
theorem between_parses_to_exactly_two_values_witness :
    parseFilters "age__between=18,65" =
      .ok [⟨"age", .between, .list [.int 18, .int 65]⟩] ∧
    ∃ a b, (FilterParam.mk "age" .between (.list [.int 18, .int 65])).value =
      .list [a, b] :=
  ⟨by decide,
    between_parses_to_exactly_two_values.2.2.2 "age__between=18,65"
      [⟨"age", .between, .list [.int 18, .int 65]⟩] (by decide)
      ⟨"age", .between, .list [.int 18, .int 65]⟩ (by simp) rfl⟩

/-- Claim C4: a field name repeated across segments of one filter string is
a syntax error — the duplicated `status` example is rejected, and any
successful parse emits a duplicate-free field list. -/
theorem duplicate_field_is_syntax_error :
    parseFilters "status__eq=active,status__eq=pending" =
      .error (.duplicateField "status") ∧
    ∀ (s : String) (ps : List FilterParam), parseFilters s = .ok ps →
      (ps.map (·.field)).Nodup := by
  refine ⟨by decide, ?_⟩
  intro s ps h
  rcases parseFilters_ok_inv s ps h with rfl | ⟨_, _, _, hc⟩
  · simp
  · exact (checkDupFields_ok_nodup ps [] hc).1

/-- Witness for C4: the universal part applied to a concrete successful
parse. -/
theorem duplicate_field_is_syntax_error_witness :
    parseFilters "status__eq=active" =
      .ok [⟨"status", .eq, .scalar (.str "active")⟩] ∧
    (([⟨"status", .eq, .scalar (.str "active")⟩] :
        List FilterParam).map (·.field)).Nodup :=
  ⟨by decide,
    duplicate_field_is_syntax_error.2 "status__eq=active"
      [⟨"status", .eq, .scalar (.str "active")⟩] (by decide)⟩

/-- The tokeniser always emits at least one token. -/
theorem tokenizeAux_ne_nil :
    ∀ (cs : List Char) (q : Option Char) (e : Bool) (cur : List Char),
      tokenizeAux cs q e cur ≠ [] := by
  intro cs
  induction cs with
  | nil =>
    intro q e cur
    simp [tokenizeAux]
  | cons c rest ih =>
    intro q e cur
    unfold tokenizeAux
    split
    · exact ih q false (c :: cur)
    · split
      · split
        · exact ih _ true (c :: cur)
        · split
          · exact ih none false (c :: cur)
          · exact ih _ false (c :: cur)
      · split
        · exact ih _ false (c :: cur)
        · split
          · simp
          · exact ih none false (c :: cur)

/-- Round-trip of the quote-aware splitter: rejoining the emitted tokens
with commas restores the processed text exactly — every character except
the top-level commas cut at is preserved verbatim (escapes included), and
commas inside quoted values are never cut. -/
theorem joinComma_tokenizeAux :
    ∀ (cs : List Char) (q : Option Char) (e : Bool) (cur : List Char),
      joinCommaL (tokenizeAux cs q e cur) = cur.reverse ++ cs := by
  intro cs
  induction cs with
  | nil =>
    intro q e cur
    simp [tokenizeAux, joinCommaL]
  | cons c rest ih =>
    intro q e cur
    unfold tokenizeAux
    split
    · rw [ih q false (c :: cur)]
      simp
    · split
      · split
        · rw [ih _ true (c :: cur)]
          simp
        · split
          · rw [ih none false (c :: cur)]
            simp
          · rw [ih _ false (c :: cur)]
            simp
      · split
        · rw [ih _ false (c :: cur)]
          simp
        · split
          next hcomma =>
            obtain ⟨t, ts, hts⟩ :=
              List.exists_cons_of_ne_nil (tokenizeAux_ne_nil rest none false [])
            rw [hts]
            show joinCommaL (cur.reverse :: t :: ts) = cur.reverse ++ c :: rest
            have hjoin : joinCommaL (cur.reverse :: t :: ts) =
                cur.reverse ++ ',' :: joinCommaL (t :: ts) := rfl
            rw [hjoin, ← hts, ih none false []]
            simp_all
          next =>
            rw [ih none false (c :: cur)]
            simp

/-- Claim C7: segment splitting never cuts a comma inside a quoted value —
rejoining any tokenisation restores the input text exactly — the
surrounding quotes are removed from the emitted value, and backslash-escaped
quotes inside quotes are preserved verbatim: `name__eq="John, Doe"` keeps
its embedded comma and `name__eq="John \"Doe\""` keeps its backslashes. -/
theorem quoted_values_survive_segment_splitting :
    (∀ s : String, joinCommaL (tokenizeL s.data) = s.data) ∧
    parseFilters "name__eq=\"John, Doe\"" =
      .ok [⟨"name", .eq, .scalar (.str "John, Doe")⟩] ∧
    parseFilters "name__eq=\"John \\\"Doe\\\"\"" =
      .ok [⟨"name", .eq, .scalar (.str "John \\\"Doe\\\"")⟩] ∧
    parseFilters "name__eq=\"John, Doe\",description__contains=\"test, value with, commas\"" =
      .ok [⟨"name", .eq, .scalar (.str "John, Doe")⟩,
           ⟨"description", .contains, .scalar (.str "test, value with, commas")⟩] := by
  refine ⟨?_, by decide, by decide, by decide⟩
  intro s
  have h := joinComma_tokenizeAux s.data none false []
  simpa [tokenizeL] using h

/-- Claim C10: the textual parser coerces scalars by syntactic shape alone
(its coercion takes only the raw text, no field catalogue): boolean words,
digit strings, decimal strings, ISO date / datetime text, UUID-shaped text
and the literal `null` each coerce to their shaped value — in particular
`email__eq=null` parses to the null value and `ids__in=1,2,3` to the
integer list `[1, 2, 3]`. -/
theorem parser_coerces_values_by_shape :
    parseFilters "email__eq=null" = .ok [⟨"email", .eq, .scalar .null⟩] ∧
    parseFilters "ids__in=1,2,3" =
      .ok [⟨"ids", .in_, .list [.int 1, .int 2, .int 3]⟩] ∧
    parseFilters "flags__in=true,false,true" =
      .ok [⟨"flags", .in_, .list [.bool true, .bool false, .bool true]⟩] ∧
    coerceScalar "true".data = .bool true ∧
    coerceScalar "false".data = .bool false ∧
    coerceScalar "42".data = .int 42 ∧
    coerceScalar "-100".data = .int (-100) ∧
    coerceScalar "100.5".data = .float (201 / 2 : ℚ) ∧
    coerceScalar "2024-01-01".data = .date 2024 1 1 ∧
    coerceScalar "2024-01-01T10:00:00".data = .datetime 2024 1 1 10 0 0 ∧
    coerceScalar "123e4567-e89b-12d3-a456-426614174000".data =
      .uuid 0x123e4567e89b12d3a456426614174000 ∧
    coerceScalar "null".data = .null ∧
    coerceScalar "john".data = .str "john" := by
  refine ⟨by decide, by decide, by decide, by decide, by decide, by decide,
    by decide, ?_, by decide, by decide, by decide, by decide, by decide⟩
  have h1 : coerceScalar "100.5".data = .float (floatValL "100.5".data) := rfl
  have h2 : floatValL "100.5".data =
      ((1 : ℤ) : ℚ) * ((((100 : ℕ) : ℤ) : ℚ) * (10 : ℚ) ^ 1 + (((5 : ℕ) : ℤ) : ℚ)) /
        (10 : ℚ) ^ 1 := rfl
  rw [h1, h2]
  norm_num

/-- Claim C6: malformed datetime / date text and non-UUID-shaped text do
not make casting fail — the caster passes the raw string through unchanged
for the datetime, date and identifier categories, and the parser likewise
leaves `invalid-uuid` and `invalid-date` as plain string values. -/
theorem malformed_temporal_and_identifier_text_passes_through :
    (∀ s : String, isDatetimeL s.data = false → isDateL s.data = false →
      castScalar .datetime (.str s) = .ok (.str s)) ∧
    (∀ s : String, isDateL s.data = false →
      castScalar .date (.str s) = .ok (.str s)) ∧
    (∀ s : String, isUuidL s.data = false →
      castScalar .identifier (.str s) = .ok (.str s)) ∧
    parseFilters "id__eq=invalid-uuid" =
      .ok [⟨"id", .eq, .scalar (.str "invalid-uuid")⟩] ∧
    parseFilters "created_at__gte=invalid-date" =
      .ok [⟨"created_at", .ge, .scalar (.str "invalid-date")⟩] := by
  refine ⟨?_, ?_, ?_, by decide, by decide⟩
  · intro s h1 h2
    simp [castScalar, h1, h2]
  · intro s h1
    simp [castScalar, h1]
  · intro s h1
    simp [castScalar, h1]

/-- Witness for C6: the pass-through universals applied at the concrete
malformed inputs `invalid-date` and `invalid-uuid`. -/
theorem malformed_text_passes_through_witness :
    (isDatetimeL "invalid-date".data = false ∧
      isDateL "invalid-date".data = false ∧
      castScalar .datetime (.str "invalid-date") = .ok (.str "invalid-date")) ∧
    (isDateL "invalid-date".data = false ∧
      castScalar .date (.str "invalid-date") = .ok (.str "invalid-date")) ∧
    (isUuidL "invalid-uuid".data = false ∧
      castScalar .identifier (.str "invalid-uuid") = .ok (.str "invalid-uuid")) :=
  ⟨⟨by decide, by decide,
      malformed_temporal_and_identifier_text_passes_through.1 "invalid-date"
        (by decide) (by decide)⟩,
   ⟨by decide,
      malformed_temporal_and_identifier_text_passes_through.2.1 "invalid-date"
        (by decide)⟩,
   ⟨by decide,
      malformed_temporal_and_identifier_text_passes_through.2.2.1 "invalid-uuid"
        (by decide)⟩⟩

/-- The custom allowed-operator configuration exercised by the tests:
reduced sets per category plus a default entry. -/
def customOperators : AllowedOperatorMap where
  entries :=
    [(.string, [.eq, .ne, .like]),
     (.numeric, [.eq, .ne, .gt, .lt]),
     (.boolean, [.eq, .ne])]
  dflt := [.eq]

/-- Claim C5: operator validation resolves the field first — an unknown
field fails with the field-not-found error whatever the operator; a known
field with an operator outside the allowed set resolved for its category
(under any map, caller-supplied replacements included) fails with the
operator-not-allowed error; and the logical operators are always permitted
for known fields regardless of category. -/
theorem operator_validation_contract :
    (∀ (cat : Catalogue) (m : AllowedOperatorMap) (f : String) (op : Op),
      assocLookup cat f = none →
      validateOperatorForField cat m f op = .error (.fieldNotFound f)) ∧
    (∀ (cat : Catalogue) (m : AllowedOperatorMap) (f : String) (op : Op)
      (c : Category), assocLookup cat f = some c → isLogicalOp op = false →
      op ∉ resolveAllowed m c →
      validateOperatorForField cat m f op = .error (.operatorNotAllowed op f)) ∧
    (∀ (cat : Catalogue) (m : AllowedOperatorMap) (f : String) (op : Op)
      (c : Category), assocLookup cat f = some c → isLogicalOp op = true →
      validateOperatorForField cat m f op = .ok true) := by
  refine ⟨?_, ?_, ?_⟩
  · intro cat m f op h
    simp [validateOperatorForField, h]
  · intro cat m f op c h hlog hmem
    simp [validateOperatorForField, h, hlog, hmem]
  · intro cat m f op c h hlog
    simp [validateOperatorForField, h, hlog]

/-- Witness for C5 over the User catalogue and the custom operator map of
the tests: unknown field, disallowed `contains` on a string field, and the
always-permitted logical `and`. -/
theorem operator_validation_contract_witness :
    (assocLookup userCatalogue "non_existent" = none ∧
      validateOperatorForField userCatalogue customOperators "non_existent" .eq =
        .error (.fieldNotFound "non_existent")) ∧
    (assocLookup userCatalogue "username" = some .string ∧
      isLogicalOp .contains = false ∧
      .contains ∉ resolveAllowed customOperators .string ∧
      validateOperatorForField userCatalogue customOperators "username" .contains =
        .error (.operatorNotAllowed .contains "username")) ∧
    (assocLookup userCatalogue "username" = some .string ∧
      isLogicalOp .and_ = true ∧
      validateOperatorForField userCatalogue customOperators "username" .and_ =
        .ok true) :=
  ⟨⟨by decide,
      operator_validation_contract.1 userCatalogue customOperators "non_existent"
        .eq (by decide)⟩,
   ⟨by decide, by decide, by decide,
      operator_validation_contract.2.1 userCatalogue customOperators "username"
        .contains .string (by decide) (by decide) (by decide)⟩,
   ⟨by decide, by decide,
      operator_validation_contract.2.2 userCatalogue customOperators "username"
        .and_ .string (by decide) (by decide)⟩⟩

end AutoCrud

